import Mathlib

/-!
Shallow embedding of the gomenutree package (gomenutree.go).

Menus are heap objects referenced by pointers in Go; here they are records
stored in a function `Nat → Menu` indexed by menu identity.  Callbacks are
opaque external code, represented by `Nat` identifiers; prompt functions are
represented as Lean functions `Unit → String`.  Terminal styling (chalk) is a
pure string-to-string transform with no logical effect and is modelled as the
identity.  Side effects (printing, reading a key, invoking a callback,
rendering) are made explicit as a trace of `Effect`s returned alongside the
new state.
-/

namespace GoMenuTree

/-- Byte constants from the Go source. -/
def up : Nat := 65
def down : Nat := 66
def left : Nat := 68
def right : Nat := 67
def escape : Nat := 27
def enter : Nat := 13
def backtick : Nat := 96
def exitX : Nat := 120
def ctrlC : Nat := 3

/-- The leftArrow rune from the Go source. -/
def leftArrowStr : String := String.singleton (Char.ofNat 0x2190)

/-- Observable side effects of the menu-tree operations. -/
inductive Effect where
  | render
  | printed (s : String)
  | readKey
  | invoke (f : Nat)
deriving DecidableEq, Repr

/-- The Menu struct of the Go source.  `options` is the Go map
(modelled extensionally as a lookup function, callbacks as `Nat` ids);
`optionsOrder` is the display-order slice; `hotKeys` is the per-render
map from uppercase one-letter strings to item indices, modelled as an
association list (Go map writes become conses; keys are distinct by
construction).  `selection` is a Go `int`, so it is `Int` here. -/
structure Menu where
  name : String
  prompt : String
  promptFunction : Option (Unit → String)
  options : String → Option Nat
  optionsOrder : List String
  selection : Int
  hotKeys : List (String × Nat)
  lastRenderLines : Nat
  longestLine : Nat

/-- The MenuTree struct of the Go source.  Menu pointers become `Nat`
identifiers resolved through the `menus` store; `subMenuMap` is the Go
map from parent menu to ordered children. -/
structure MenuTree where
  homeMenu : Nat
  currentMenu : Nat
  previousMenu : Option Nat
  subMenuMap : List (Nat × List Nat)
  displaying : Bool
  Redraw : Bool
  menus : Nat → Menu

/-- The menu record the current-menu pointer resolves to. -/
def MenuTree.cur (s : MenuTree) : Menu := s.menus s.currentMenu

/-- Write back the current menu record (mutation through the pointer). -/
def MenuTree.setCur (s : MenuTree) (m : Menu) : MenuTree :=
  { s with menus := fun i => if i = s.currentMenu then m else s.menus i }

/-- NewMenuTree from the Go source: current menu starts at home, Redraw on,
empty submenu map; `displaying` has the Go zero value false.  The `menus`
store is the preexisting heap of menu objects. -/
def NewMenuTree (homeMenu : Nat) (menus : Nat → Menu) : MenuTree :=
  { homeMenu := homeMenu
    currentMenu := homeMenu
    previousMenu := none
    subMenuMap := []
    displaying := false
    Redraw := true
    menus := menus }

/-- NewMenu from the Go source: promptFunction takes priority if non-nil. -/
def NewMenu (name : String) (prompt : String)
    (promptFunction : Option (Unit → String)) : Menu :=
  { name := name
    prompt := if promptFunction.isSome then ("") else prompt
    promptFunction := promptFunction
    options := fun _ => none
    optionsOrder := []
    selection := 0
    hotKeys := []
    lastRenderLines := 0
    longestLine := 0 }

/-- SetPrompt from the Go source: updates the current menu's prompt fields,
promptFunction taking priority; it performs no other action. -/
def MenuTree.SetPrompt (s : MenuTree) (prompt : String)
    (promptFunction : Option (Unit → String)) : MenuTree × List Effect :=
  match promptFunction with
  | some f =>
      (s.setCur { s.cur with prompt := (""), promptFunction := some f }, [])
  | none =>
      (s.setCur { s.cur with prompt := prompt, promptFunction := none }, [])

/-- The in-place slice surgery `append(buf[:i], buf[i+1:]...)` performed on a
slice of current length `len` over a backing array `buf`: elements `i+1 ..
len-1` shift down one position; positions from `len-1` on keep their old
(now stale) values.  The resulting backing array. -/
def sliceRemoveAt (buf : List String) (len i : Nat) : List String :=
  buf.take i ++ (buf.drop (i + 1)).take (len - (i + 1)) ++ buf.drop (len - 1)

/-- The removal loop of AddOption: `for i, n := range m.optionsOrder` iterates
`steps` times (the slice length captured at loop start) with index `i`,
reading `n` from the shared backing array (which the in-loop append mutates);
on `n == name` it performs the slice surgery and shortens the slice. -/
def addOptionGo (name : String) : Nat → Nat → List String × Nat → List String × Nat
  | 0, _, st => st
  | steps + 1, i, (buf, len) =>
      let st := if buf.getD i ("") = name then (sliceRemoveAt buf len i, len - 1)
                else (buf, len)
      addOptionGo name steps (i + 1) st

/-- AddOption from the Go source: bind the name in the options map, run the
removal loop over the order slice, then append the name (the append writes at
the current length inside the backing array when capacity allows, which the
`take len ++ [name]` expresses). -/
def Menu.AddOption (m : Menu) (name : String) (f : Nat) : Menu :=
  let options := fun k => if k = name then some f else m.options k
  let L := m.optionsOrder.length
  let r := addOptionGo name L 0 (m.optionsOrder, L)
  { m with options := options, optionsOrder := r.1.take r.2 ++ [name] }

/-- getInput from the Go source, given the bytes actually read (the Go buffer
is 3 bytes and zero-initialised, so out-of-range reads yield 0): a 3-byte
read switches on the third byte (arrow-key escape sequence), a shorter read
on the first byte. -/
def getInput (bb : List Nat) : String :=
  if bb.length = 3 then
    let b := bb.getD 2 0
    if b = up then ("UP")
    else if b = down then ("DOWN")
    else if b = left then ("BACK")
    else if b = right then ("ENTER")
    else ("DOWN")
  else
    let b := bb.getD 0 0
    if b = enter then ("ENTER")
    else if b = escape then ("BACK")
    else if b = backtick then ("TOGGLE")
    else if b = exitX then ("EXIT")
    else if b = ctrlC then ("EXIT")
    else String.singleton (Char.ofNat b)

/-- The character scan of assignHotkey from the Go source:
`for _, ch := range strings.Split(name, "")` — per character, uppercase it,
skip the reserved letter X, and claim the first uppercase letter not already
a key of the table, registering letter → index. -/
def assignHotkeyGo (hk : List (String × Nat)) (index : Nat) :
    List Char → List (String × Nat) × Option String
  | [] => (hk, none)
  | c :: rest =>
      let uch := String.singleton (Char.toUpper c)
      if uch = "X" then assignHotkeyGo hk index rest
      else
        match List.lookup uch hk with
        | some _ => assignHotkeyGo hk index rest
        | none => ((uch, index) :: hk, some (String.singleton c))

/-- assignHotkey from the Go source, acting on the menu's hotKeys table. -/
def Menu.assignHotkey (m : Menu) (name : String) (index : Nat) :
    Menu × Option String :=
  let r := assignHotkeyGo m.hotKeys index name.data
  ({ m with hotKeys := r.1 }, r.2)

/-- The prompt normalization in render: replace CRLF then LFCR by LF. -/
def normalizePrompt (p : String) : String :=
  (p.replace ("\r\n") ("\n")).replace ("\n\r") ("\n")

/-- The options loop of render: per option (in display order, index `i`),
assign a hotkey and emit the option line, with the cursor marker on the
selected index.  The hotkey underline substitution is the identity under
the identity styling model, so the displayed text is the name itself. -/
def renderOptionLines (sel : Int) : List String → Nat → Menu → Menu × List String
  | [], _, m => (m, [])
  | o :: rest, i, m =>
      let r := m.assignHotkey o i
      let line := (if (i : Int) = sel then (">") else (" ")) ++ o
      let rec' := renderOptionLines sel rest (i + 1) r.1
      (rec'.1, line :: rec'.2)

/-- The submenu loop of render: per child menu (index `i` within the child
list, display index `base + i` where `base` is the option count), assign a
hotkey from the child's name and emit its line. -/
def renderSubLines (menus : Nat → Menu) (sel : Int) (base : Nat) :
    List Nat → Nat → Menu → Menu × List String
  | [], _, m => (m, [])
  | smId :: rest, i, m =>
      let nm := (menus smId).name
      let mIdx := i + base
      let r := m.assignHotkey nm mIdx
      let line := (if (mIdx : Int) = sel then (">") else (" ")) ++ nm
      let rec' := renderSubLines menus sel base rest (i + 1) r.1
      (rec'.1, line :: rec'.2)

/-- The prompt-resolution step of render: re-evaluate the prompt function if
one is set, then normalize the line endings of a non-empty prompt. -/
def resolvePrompt (m : Menu) : Menu :=
  let m := match m.promptFunction with
    | some f => { m with prompt := f () }
    | none => m
  if m.prompt ≠ "" then { m with prompt := normalizePrompt m.prompt } else m

/-- The new current-menu record computed by one render pass, together with
the text lines of the block (title, prompt, options with heading, submenus
with heading, blank separator, footer). -/
def renderMenuLines (s : MenuTree) : Menu × List String :=
  let cm := { s.cur with hotKeys := [] }
  let lines0 := [("Menu: ") ++ cm.name]
  let cm := resolvePrompt cm
  let promptLines := if cm.prompt ≠ "" then
      (cm.prompt.splitOn ("\n")).map (fun l => (" ") ++ l)
    else []
  let ro := renderOptionLines cm.selection cm.optionsOrder 0 cm
  let cm := ro.1
  let optBlock := if cm.optionsOrder.isEmpty then ro.2 else ("Options:") :: ro.2
  let rs := match List.lookup s.currentMenu s.subMenuMap with
    | some smm =>
        let r := renderSubLines s.menus cm.selection cm.optionsOrder.length smm 0 cm
        (r.1, ("SubMenus:") :: r.2)
    | none => (cm, [])
  let cm := rs.1
  let footer := match s.previousMenu with
    | some pm =>
        (" ") ++ leftArrowStr ++ ("/esc back to ") ++ (s.menus pm).name ++ (", Exit ")
    | none => ("Exit")
  let lines := lines0 ++ promptLines ++ optBlock ++ rs.2 ++ [""] ++ [footer]
  let longest := (lines.foldl (fun acc l => max acc l.utf8ByteSize) 0) + 2
  ({ cm with longestLine := longest, lastRenderLines := lines.length + 1 }, lines)

/-- render from the Go source: clear the hotkey table, resolve the prompt
(prompt function re-evaluated, then normalization and splitting when
non-empty), build the title, option, submenu, separator and footer lines,
and record the layout metrics.  Styling is the identity, and the actual
terminal writes of the bordered block are abstracted to one render effect. -/
def MenuTree.render (s : MenuTree) : MenuTree × List Effect :=
  (s.setCur (renderMenuLines s).1, [Effect.render])

/-- ChangeMenu from the Go source: record the old current menu as previous
(cleared when the target is the home menu), switch, reset the target's
lastRenderLines, and re-render when a session is active. -/
def MenuTree.ChangeMenu (s : MenuTree) (menu : Nat) : MenuTree × List Effect :=
  let s := { s with previousMenu := some s.currentMenu }
  let s := if menu = s.homeMenu then { s with previousMenu := none } else s
  let s := { s with currentMenu := menu }
  let s := s.setCur { s.cur with lastRenderLines := 0 }
  if s.displaying then s.render else (s, [])

/-- Right-pad a banner line with a fill character up to the menu width, as the
Go `fill := longestLine - len(line); if fill > 0 ...` loops do (Go `len` is
the byte length; a non-positive fill adds nothing, matching truncated
subtraction). -/
def padWith (line : String) (width : Nat) (c : Char) : String :=
  line ++ String.mk (List.replicate (width - line.utf8ByteSize) c)

/-- execute from the Go source.  Option range: erase two lines when redraw is
on, print the executing banner, then invoke the callback bracketed by output
banners, wait for a key and re-render — unless the name is missing from the
options map, in which case only the two diagnostic lines are printed.
Submenu range: change into the child, or print a diagnostic, wait for a key
and re-render when the submenu relation or offset does not resolve. -/
def MenuTree.execute (s : MenuTree) (index : Int) : MenuTree × List Effect :=
  let cm := s.cur
  if 0 ≤ index ∧ index < (cm.optionsOrder.length : Int) then
    let t0 : List Effect := if s.Redraw then [Effect.printed ("\x1b[2A")] else []
    let s := s.setCur { s.cur with lastRenderLines := 0 }
    let fName := cm.optionsOrder.getD index.toNat ("")
    let banner := padWith (("\n*** Executing ") ++ fName ++ ("... ***")) cm.longestLine ('*')
    let t1 := t0 ++ [Effect.printed banner]
    match cm.options fName with
    | some f =>
        let outB := padWith ("------------- Output -------------") cm.longestLine ('-')
        let endB := padWith ("-------------- End ---------------") cm.longestLine ('-')
        let r := s.render
        (r.1, t1 ++ [Effect.printed outB, Effect.invoke f, Effect.printed endB,
              Effect.printed ("(Press any key to continue)"), Effect.readKey,
              Effect.printed ("")] ++ r.2)
    | none =>
        (s, t1 ++ [Effect.printed ("\nError, function not found in Options map."),
              Effect.printed ("(Press any key to continue)")])
  else
    let subIndex := index - (cm.optionsOrder.length : Int)
    match List.lookup s.currentMenu s.subMenuMap with
    | none =>
        let s := s.setCur { s.cur with lastRenderLines := s.cur.lastRenderLines + 2 }
        let r := s.render
        (r.1, [Effect.printed ("\nError, menu not found in subMenu map."),
              Effect.printed ("(Press any key to continue)"), Effect.readKey] ++ r.2)
    | some smm =>
        if 0 ≤ subIndex ∧ subIndex < (smm.length : Int) then
          s.ChangeMenu (smm.getD subIndex.toNat 0)
        else
          let s := s.setCur { s.cur with lastRenderLines := s.cur.lastRenderLines + 2 }
          let r := s.render
          (r.1, [Effect.printed ("\nError, function not found in Options map."),
                Effect.printed ("(Press any key to continue)"), Effect.readKey] ++ r.2)

/-- One iteration of the Display loop from the Go source: the switch on the
upper-cased decoded input.  UP and DOWN adjust the selection with the
wraparound arithmetic of the source and re-render; ENTER executes the
selection; BACK changes to the previous menu when one exists; TOGGLE flips
Redraw around a re-render; the empty decode is a no-op; EXIT stops the
session unless the literal key EXIT is a registered hotkey; any other input
is a hotkey lookup, a no-op on a miss. -/
def MenuTree.processCommand (s : MenuTree) (input : String) : MenuTree × List Effect :=
  if input = "UP" then
    let sel := s.cur.selection - 1
    let sel := if sel < 0 then
        ((s.cur.optionsOrder.length : Int) - 1) +
          (match List.lookup s.currentMenu s.subMenuMap with
           | some smm => (smm.length : Int)
           | none => 0)
      else sel
    let s := s.setCur { s.cur with selection := sel }
    s.render
  else if input = "DOWN" then
    let sel := s.cur.selection + 1
    let total := ((s.cur.optionsOrder.length : Int) - 1) +
        (match List.lookup s.currentMenu s.subMenuMap with
         | some smm => (smm.length : Int)
         | none => 0)
    let sel := if sel > total then 0 else sel
    let s := s.setCur { s.cur with selection := sel }
    s.render
  else if input = "ENTER" then
    s.execute s.cur.selection
  else if input = "BACK" then
    match s.previousMenu with
    | some pm => s.ChangeMenu pm
    | none => (s, [])
  else if input = "TOGGLE" then
    if s.Redraw then
      let s := { s with Redraw := false }
      let r := s.render
      (r.1, Effect.printed ("\nredraw disabled") :: r.2)
    else
      let r := s.render
      ({ r.1 with Redraw := true }, Effect.printed ("\nredraw enabled") :: r.2)
  else if input = "" then
    (s, [])
  else if input = "EXIT" then
    match List.lookup ("EXIT") s.cur.hotKeys with
    | none => ({ s with displaying := false }, [])
    | some i => s.execute (i : Int)
  else
    match List.lookup input s.cur.hotKeys with
    | some i =>
        let s := s.setCur { s.cur with selection := (i : Int) }
        s.execute (i : Int)
    | none => (s, [])

/-- strings.ToUpper from the Go standard library (an out-of-scope
collaborator), modelled per rune. -/
def stringsToUpper (s : String) : String :=
  String.mk (s.data.map Char.toUpper)

/-- One full iteration of the Display loop: decode the raw read and process
the upper-cased command, as `strings.ToUpper(m.getInput())` does. -/
def MenuTree.displayStep (s : MenuTree) (bb : List Nat) : MenuTree × List Effect :=
  s.processCommand (stringsToUpper (getInput bb))

/-- Fold a command sequence through the Display loop, discarding traces. -/
def MenuTree.runCommands (s : MenuTree) (cmds : List String) : MenuTree :=
  cmds.foldl (fun s c => (s.processCommand c).1) s

/-- The option count plus submenu count of the current menu (the selection
range bound `total` of the Display loop). -/
def MenuTree.total (s : MenuTree) : Nat :=
  s.cur.optionsOrder.length +
    (match List.lookup s.currentMenu s.subMenuMap with
     | some smm => smm.length
     | none => 0)

/-- Fold ChangeMenu over a sequence of target menus, discarding traces. -/
def MenuTree.changeSeq (s : MenuTree) (targets : List Nat) : MenuTree :=
  targets.foldl (fun s t => (s.ChangeMenu t).1) s

/-- The hotkey-table well-formedness the render pass establishes: keys are
pairwise distinct, none is the reserved exit letter, and each is a single
character. -/
def goodTable (hk : List (String × Nat)) : Prop :=
  (hk.map Prod.fst).Nodup ∧ ∀ k ∈ hk.map Prod.fst, k ≠ "X" ∧ k.length = 1

/-- Modelled from the spec (claim C7): the decoding of a 3-byte read from its
third byte alone — the up/down/left/right arrow terminators map to
UP/DOWN/BACK/ENTER, any other third byte to DOWN. -/
def arrowCommandSpec (b : Nat) : String :=
  if b = 65 then ("UP")
  else if b = 66 then ("DOWN")
  else if b = 68 then ("BACK")
  else if b = 67 then ("ENTER")
  else ("DOWN")

/-- Modelled from the spec (claim C7): the decoding of a short read from its
first byte — carriage return to ENTER, escape to BACK, backtick to TOGGLE,
the exit byte or the interrupt byte to EXIT, any other byte to itself as a
literal character. -/
def singleByteCommandSpec (b : Nat) : String :=
  if b = 13 then ("ENTER")
  else if b = 27 then ("BACK")
  else if b = 96 then ("TOGGLE")
  else if b = 120 ∨ b = 3 then ("EXIT")
  else String.singleton (Char.ofNat b)

/-! Concrete example states used by counterexamples and witnesses. -/

/-- A menu tree with an active session, used for the SetPrompt claims. -/
def exPromptTree : MenuTree :=
  { NewMenuTree 0 (fun _ => NewMenu ("Main") ("welcome") none) with displaying := true }

/-- A menu with no options and no submenu relation, current in its tree. -/
def exEmptyTree : MenuTree :=
  NewMenuTree 0 (fun _ => NewMenu ("Empty") ("") none)

/-- A menu whose order slice names an option that the options map does not
bind (the concurrent-mutation error state of execute). -/
def exDanglingTree : MenuTree :=
  { NewMenuTree 0 (fun _ => { NewMenu ("Bad") ("") none with optionsOrder := ["alpha"] })
      with Redraw := false }

/-- The home menu of the two-option, one-submenu example tree. -/
def exMainMenu : Menu :=
  { NewMenu ("Main") ("") none with
      optionsOrder := ["foo", "bar"],
      options := fun k => if k = "foo" then some 1 else if k = "bar" then some 2 else none }

/-- The submenu of the example tree. -/
def exSubMenu : Menu :=
  { NewMenu ("Sub") ("") none with
      optionsOrder := ["baz"],
      options := fun k => if k = "baz" then some 3 else none }

/-- A tree with home menu `Main` (two options) and one submenu `Sub`. -/
def exMainTree : MenuTree :=
  { NewMenuTree 0 (fun i => if i = 0 then exMainMenu else exSubMenu) with
      subMenuMap := [(0, [1])] }

/-- A menu with three options in display order a, b, c. -/
def exAddMenu : Menu :=
  { NewMenu ("Abc") ("") none with optionsOrder := ["a", "b", "c"] }

/-! ### Helper lemmas -/

lemma setCur_cur (s : MenuTree) (m : Menu) : (s.setCur m).cur = m := by
  simp [MenuTree.setCur, MenuTree.cur]

lemma setCur_currentMenu (s : MenuTree) (m : Menu) :
    (s.setCur m).currentMenu = s.currentMenu := rfl

lemma setCur_previousMenu (s : MenuTree) (m : Menu) :
    (s.setCur m).previousMenu = s.previousMenu := rfl

lemma setCur_homeMenu (s : MenuTree) (m : Menu) :
    (s.setCur m).homeMenu = s.homeMenu := rfl

lemma setCur_subMenuMap (s : MenuTree) (m : Menu) :
    (s.setCur m).subMenuMap = s.subMenuMap := rfl

lemma setCur_displaying (s : MenuTree) (m : Menu) :
    (s.setCur m).displaying = s.displaying := rfl

lemma setCur_Redraw (s : MenuTree) (m : Menu) :
    (s.setCur m).Redraw = s.Redraw := rfl

lemma render_currentMenu (s : MenuTree) :
    ((s.render).1).currentMenu = s.currentMenu := rfl

lemma render_previousMenu (s : MenuTree) :
    ((s.render).1).previousMenu = s.previousMenu := rfl

lemma render_homeMenu (s : MenuTree) :
    ((s.render).1).homeMenu = s.homeMenu := rfl

lemma render_subMenuMap (s : MenuTree) :
    ((s.render).1).subMenuMap = s.subMenuMap := rfl

lemma render_displaying (s : MenuTree) :
    ((s.render).1).displaying = s.displaying := rfl

lemma render_Redraw (s : MenuTree) :
    ((s.render).1).Redraw = s.Redraw := rfl

lemma resolvePrompt_selection (m : Menu) : (resolvePrompt m).selection = m.selection := by
  unfold resolvePrompt
  split <;> (dsimp only; split <;> rfl)

lemma resolvePrompt_optionsOrder (m : Menu) :
    (resolvePrompt m).optionsOrder = m.optionsOrder := by
  unfold resolvePrompt
  split <;> (dsimp only; split <;> rfl)

lemma resolvePrompt_hotKeys (m : Menu) : (resolvePrompt m).hotKeys = m.hotKeys := by
  unfold resolvePrompt
  split <;> (dsimp only; split <;> rfl)

lemma assignHotkey_selection (m : Menu) (n : String) (i : Nat) :
    ((m.assignHotkey n i).1).selection = m.selection := rfl

lemma assignHotkey_optionsOrder (m : Menu) (n : String) (i : Nat) :
    ((m.assignHotkey n i).1).optionsOrder = m.optionsOrder := rfl

lemma renderOptionLines_selection (sel : Int) (os : List String) (i : Nat) (m : Menu) :
    ((renderOptionLines sel os i m).1).selection = m.selection := by
  induction os generalizing i m with
  | nil => rfl
  | cons o rest ih => simp [renderOptionLines, ih, assignHotkey_selection]

lemma renderOptionLines_optionsOrder (sel : Int) (os : List String) (i : Nat) (m : Menu) :
    ((renderOptionLines sel os i m).1).optionsOrder = m.optionsOrder := by
  induction os generalizing i m with
  | nil => rfl
  | cons o rest ih => simp [renderOptionLines, ih, assignHotkey_optionsOrder]

lemma renderSubLines_selection (menus : Nat → Menu) (sel : Int) (base : Nat)
    (sm : List Nat) (i : Nat) (m : Menu) :
    ((renderSubLines menus sel base sm i m).1).selection = m.selection := by
  induction sm generalizing i m with
  | nil => rfl
  | cons x rest ih => simp [renderSubLines, ih, assignHotkey_selection]

lemma renderSubLines_optionsOrder (menus : Nat → Menu) (sel : Int) (base : Nat)
    (sm : List Nat) (i : Nat) (m : Menu) :
    ((renderSubLines menus sel base sm i m).1).optionsOrder = m.optionsOrder := by
  induction sm generalizing i m with
  | nil => rfl
  | cons x rest ih => simp [renderSubLines, ih, assignHotkey_optionsOrder]

lemma renderMenuLines_selection (s : MenuTree) :
    ((renderMenuLines s).1).selection = s.cur.selection := by
  unfold renderMenuLines
  cases h : List.lookup s.currentMenu s.subMenuMap <;>
    simp [h, renderSubLines_selection, renderOptionLines_selection, resolvePrompt_selection]

lemma renderMenuLines_optionsOrder (s : MenuTree) :
    ((renderMenuLines s).1).optionsOrder = s.cur.optionsOrder := by
  unfold renderMenuLines
  cases h : List.lookup s.currentMenu s.subMenuMap <;>
    simp [h, renderSubLines_optionsOrder, renderOptionLines_optionsOrder,
      resolvePrompt_optionsOrder]

lemma render_cur_selection (s : MenuTree) :
    ((s.render).1).cur.selection = s.cur.selection := by
  simp [MenuTree.render, setCur_cur, renderMenuLines_selection]

lemma render_cur_optionsOrder (s : MenuTree) :
    ((s.render).1).cur.optionsOrder = s.cur.optionsOrder := by
  simp [MenuTree.render, setCur_cur, renderMenuLines_optionsOrder]

lemma render_total (s : MenuTree) : ((s.render).1).total = s.total := by
  simp only [MenuTree.total, render_cur_optionsOrder, render_currentMenu, render_subMenuMap]

lemma setCur_total_selection (s : MenuTree) (x : Int) :
    (s.setCur { s.cur with selection := x }).total = s.total := by
  simp only [MenuTree.total, setCur_cur, setCur_currentMenu, setCur_subMenuMap]

lemma processUP_cur_selection (s : MenuTree) :
    ((s.processCommand ("UP")).1).cur.selection =
      (if s.cur.selection - 1 < 0 then
        ((s.cur.optionsOrder.length : Int) - 1) +
          (match List.lookup s.currentMenu s.subMenuMap with
           | some smm => (smm.length : Int)
           | none => 0)
       else s.cur.selection - 1) := by
  simp [MenuTree.processCommand, render_cur_selection, setCur_cur]

lemma processDOWN_cur_selection (s : MenuTree) :
    ((s.processCommand ("DOWN")).1).cur.selection =
      (if s.cur.selection + 1 >
          ((s.cur.optionsOrder.length : Int) - 1) +
            (match List.lookup s.currentMenu s.subMenuMap with
             | some smm => (smm.length : Int)
             | none => 0)
       then 0 else s.cur.selection + 1) := by
  simp [MenuTree.processCommand, render_cur_selection, setCur_cur]

lemma processUP_total (s : MenuTree) :
    ((s.processCommand ("UP")).1).total = s.total := by
  simp [MenuTree.processCommand, render_total, setCur_total_selection]

lemma processDOWN_total (s : MenuTree) :
    ((s.processCommand ("DOWN")).1).total = s.total := by
  simp [MenuTree.processCommand, render_total, setCur_total_selection]

lemma total_split (s : MenuTree) :
    (s.total : Int) =
      (s.cur.optionsOrder.length : Int) +
        (match List.lookup s.currentMenu s.subMenuMap with
         | some smm => (smm.length : Int)
         | none => 0) := by
  unfold MenuTree.total
  cases List.lookup s.currentMenu s.subMenuMap <;> simp

/-! ### C1 — SetPrompt and re-rendering -/

/-- C1: the claim says SetPrompt during an active session forces an immediate
re-render; in the code SetPrompt only updates the prompt fields and emits no
effect at all, so at a concrete state with `displaying = true` the update
produces an empty trace with no render. -/
theorem c1_counterexample :
    exPromptTree.displaying = true ∧
    (exPromptTree.SetPrompt ("changed") none).2 = [] ∧
    Effect.render ∉ (exPromptTree.SetPrompt ("changed") none).2 ∧
    ((exPromptTree.SetPrompt ("changed") none).1).cur.prompt = "changed" := by
  refine ⟨rfl, rfl, ?_, rfl⟩
  decide

/-- C1 (amended): SetPrompt updates the current menu's prompt fields (a
prompt function taking precedence over a static prompt) but never triggers a
re-render, even when a session is active; the menu is redrawn only by the
next command. -/
theorem c1_setPrompt_no_rerender :
    ∀ (s : MenuTree) (p : String) (pf : Option (Unit → String)),
      (s.SetPrompt p pf).2 = [] ∧
      ((s.SetPrompt p pf).1).currentMenu = s.currentMenu ∧
      ((s.SetPrompt p pf).1).displaying = s.displaying ∧
      (∀ f, pf = some f →
        ((s.SetPrompt p pf).1).cur.prompt = "" ∧
        ((s.SetPrompt p pf).1).cur.promptFunction = some f) ∧
      (pf = none →
        ((s.SetPrompt p pf).1).cur.prompt = p ∧
        ((s.SetPrompt p pf).1).cur.promptFunction = none) := by
  intro s p pf
  cases pf <;>
    simp [MenuTree.SetPrompt, setCur_cur, setCur_currentMenu, setCur_displaying]

/-- C1 witness: the amended statement applied to a concrete active session. -/
theorem c1_setPrompt_no_rerender_witness :
    (exPromptTree.SetPrompt ("changed") none).2 = [] ∧
    ((exPromptTree.SetPrompt ("changed") none).1).cur.prompt = "changed" ∧
    ((exPromptTree.SetPrompt ("changed") none).1).cur.promptFunction = none :=
  ⟨(c1_setPrompt_no_rerender exPromptTree ("changed") none).1,
   ((c1_setPrompt_no_rerender exPromptTree ("changed") none).2.2.2.2 rfl).1,
   ((c1_setPrompt_no_rerender exPromptTree ("changed") none).2.2.2.2 rfl).2⟩

/-! ### C2 — UP and DOWN on an empty menu -/

/-- C2: the claim says that with `total = 0` and `selection = 0` neither UP
nor DOWN moves the selection away from 0; in the code UP underflows: at the
concrete empty menu the selection after UP is `-1`, not `0`. -/
theorem c2_counterexample :
    exEmptyTree.total = 0 ∧
    exEmptyTree.cur.selection = 0 ∧
    ((exEmptyTree.processCommand ("UP")).1).cur.selection = -1 ∧
    ((exEmptyTree.processCommand ("UP")).1).cur.selection ≠ 0 := by
  refine ⟨rfl, rfl, ?_, ?_⟩ <;> decide

/-- C2 (amended): with `total = 0` and `selection = 0`, DOWN holds the
selection at 0, but UP underflows it to `-1` (the Go wraparound assigns
`len(optionsOrder) - 1` plus the submenu count, which is `-1` here). -/
theorem c2_empty_menu_up_down :
    ∀ s : MenuTree, s.total = 0 → s.cur.selection = 0 →
      ((s.processCommand ("DOWN")).1).cur.selection = 0 ∧
      ((s.processCommand ("UP")).1).cur.selection = -1 := by
  intro s h0 hsel
  have hsplit := total_split s
  rw [h0] at hsplit
  rw [processDOWN_cur_selection, processUP_cur_selection, hsel]
  constructor
  · rw [if_pos]
    omega
  · rw [if_pos (by omega)]
    omega

/-- C2 witness: the amended statement applied to the concrete empty menu. -/
theorem c2_empty_menu_up_down_witness :
    ((exEmptyTree.processCommand ("DOWN")).1).cur.selection = 0 ∧
    ((exEmptyTree.processCommand ("UP")).1).cur.selection = -1 :=
  c2_empty_menu_up_down exEmptyTree rfl rfl

/-! ### C7 — the input decoder -/

/-- C7: the input decoder is a total function on reads: a 3-byte read is
decoded from its third byte alone through the arrow-terminator map (with the
permissive DOWN fallback), and a read of fewer than 3 bytes is decoded from
its first byte (carriage return to ENTER, escape to BACK, backtick to
TOGGLE, the exit or interrupt byte to EXIT, anything else to itself as a
literal character). -/
theorem c7_input_decoder :
    ∀ b1 b2 b3 : Nat,
      getInput [b1, b2, b3] = arrowCommandSpec b3 ∧
      getInput [b1] = singleByteCommandSpec b1 ∧
      getInput [b1, b2] = singleByteCommandSpec b1 ∧
      getInput [] = singleByteCommandSpec 0 := by
  intro b1 b2 b3
  refine ⟨?_, ?_, ?_, ?_⟩ <;>
    simp [getInput, arrowCommandSpec, singleByteCommandSpec,
      up, down, left, right, enter, escape, backtick, exitX, ctrlC] <;>
    split_ifs <;> simp_all

/-! ### C6 — ChangeMenu and the previous-menu slot -/

lemma ChangeMenu_previousMenu (s : MenuTree) (t : Nat) :
    ((s.ChangeMenu t).1).previousMenu =
      (if t = s.homeMenu then none else some s.currentMenu) := by
  unfold MenuTree.ChangeMenu
  by_cases h : t = s.homeMenu <;>
    simp [h, setCur_previousMenu, render_previousMenu] <;>
    split <;> simp [render_previousMenu, setCur_previousMenu]

lemma ChangeMenu_currentMenu (s : MenuTree) (t : Nat) :
    ((s.ChangeMenu t).1).currentMenu = t := by
  unfold MenuTree.ChangeMenu
  by_cases h : t = s.homeMenu <;>
    simp [h, setCur_currentMenu, render_currentMenu] <;>
    split <;> simp [render_currentMenu, setCur_currentMenu]

lemma ChangeMenu_homeMenu (s : MenuTree) (t : Nat) :
    ((s.ChangeMenu t).1).homeMenu = s.homeMenu := by
  unfold MenuTree.ChangeMenu
  by_cases h : t = s.homeMenu <;>
    simp [h, setCur_homeMenu, render_homeMenu] <;>
    split <;> simp [render_homeMenu, setCur_homeMenu]

lemma changeSeq_inv (targets : List Nat) :
    ∀ s : MenuTree, (s.previousMenu = none ↔ s.currentMenu = s.homeMenu) →
      ((s.changeSeq targets).previousMenu = none ↔
       (s.changeSeq targets).currentMenu = (s.changeSeq targets).homeMenu) := by
  induction targets with
  | nil => intro s h; simpa [MenuTree.changeSeq]
  | cons t rest ih =>
    intro s h
    simp only [MenuTree.changeSeq, List.foldl_cons] at ih ⊢
    apply ih
    rw [ChangeMenu_previousMenu, ChangeMenu_currentMenu, ChangeMenu_homeMenu]
    by_cases ht : t = s.homeMenu <;> simp [ht]

/-- C6: ChangeMenu to the home menu always clears the previous-menu slot;
ChangeMenu to any other menu sets it to the menu that was current
immediately before the call; and from the initial state, along any sequence
of ChangeMenu transitions, the previous menu is none exactly when the
current menu is the home menu. -/
theorem c6_changeMenu_previous :
    (∀ (s : MenuTree) (t : Nat), t = s.homeMenu →
      ((s.ChangeMenu t).1).previousMenu = none) ∧
    (∀ (s : MenuTree) (t : Nat), t ≠ s.homeMenu →
      ((s.ChangeMenu t).1).previousMenu = some s.currentMenu) ∧
    (∀ (home : Nat) (menus : Nat → Menu) (targets : List Nat),
      (((NewMenuTree home menus).changeSeq targets).previousMenu = none ↔
       ((NewMenuTree home menus).changeSeq targets).currentMenu =
         ((NewMenuTree home menus).changeSeq targets).homeMenu)) := by
  refine ⟨?_, ?_, ?_⟩
  · intro s t ht
    rw [ChangeMenu_previousMenu, if_pos ht]
  · intro s t ht
    rw [ChangeMenu_previousMenu, if_neg ht]
  · intro home menus targets
    exact changeSeq_inv targets (NewMenuTree home menus) (by simp [NewMenuTree])

/-- C6 witness: the per-call clauses at the concrete example tree. -/
theorem c6_changeMenu_previous_witness :
    ((exMainTree.ChangeMenu 0).1).previousMenu = none ∧
    ((exMainTree.ChangeMenu 1).1).previousMenu = some 0 :=
  ⟨c6_changeMenu_previous.1 exMainTree 0 rfl,
   c6_changeMenu_previous.2.1 exMainTree 1 (by decide)⟩

/-! ### C3 — selecting an option missing from the options map -/

/-- C3: the spec says this error path prints a one-line diagnostic, waits
for one keypress and returns to the current menu unchanged.  The code prints
the diagnostic and the "(Press any key to continue)" line and leaves the
menu-graph state unchanged, but — unlike the two submenu error paths — it
never performs the read it announces and never re-renders: the trace
contains no readKey and no render effect.  The next keypress is therefore
consumed by the main loop as a command. -/
theorem c3_missing_option_no_wait :
    (exDanglingTree.execute 0).2 =
      [Effect.printed ("\n*** Executing alpha... ***"),
       Effect.printed ("\nError, function not found in Options map."),
       Effect.printed ("(Press any key to continue)")] ∧
    Effect.readKey ∉ (exDanglingTree.execute 0).2 ∧
    Effect.render ∉ (exDanglingTree.execute 0).2 ∧
    ((exDanglingTree.execute 0).1).currentMenu = exDanglingTree.currentMenu ∧
    ((exDanglingTree.execute 0).1).previousMenu = exDanglingTree.previousMenu ∧
    ((exDanglingTree.execute 0).1).subMenuMap = exDanglingTree.subMenuMap := by
  refine ⟨?_, ?_, ?_, rfl, rfl, rfl⟩ <;> decide

/-! ### C5 — UP/DOWN wraparound on a non-empty menu -/

lemma up_at_zero (s : MenuTree) (htot : 0 < s.total) (hsel : s.cur.selection = 0) :
    ((s.processCommand ("UP")).1).cur.selection = (s.total : Int) - 1 := by
  have hsplit := total_split s
  rw [processUP_cur_selection, hsel, if_pos (by omega)]
  omega

lemma down_at_top (s : MenuTree) (hsel : s.cur.selection = (s.total : Int) - 1) :
    ((s.processCommand ("DOWN")).1).cur.selection = 0 := by
  have hsplit := total_split s
  rw [processDOWN_cur_selection, hsel, if_pos (by omega)]

lemma upDown_step (s : MenuTree) (c : String) (hc : c = "UP" ∨ c = "DOWN")
    (htot : 0 < s.total) (h0 : 0 ≤ s.cur.selection)
    (h1 : s.cur.selection < (s.total : Int)) :
    0 ≤ ((s.processCommand c).1).cur.selection ∧
    ((s.processCommand c).1).cur.selection < (s.total : Int) ∧
    ((s.processCommand c).1).total = s.total := by
  have hsplit := total_split s
  rcases hc with rfl | rfl
  · refine ⟨?_, ?_, processUP_total s⟩ <;>
      (rw [processUP_cur_selection]; split_ifs <;> omega)
  · refine ⟨?_, ?_, processDOWN_total s⟩ <;>
      (rw [processDOWN_cur_selection]; split_ifs <;> omega)

lemma runCommands_inv (cmds : List String) :
    ∀ s : MenuTree, (∀ c ∈ cmds, c = "UP" ∨ c = "DOWN") →
      0 < s.total → 0 ≤ s.cur.selection → s.cur.selection < (s.total : Int) →
      0 ≤ (s.runCommands cmds).cur.selection ∧
      (s.runCommands cmds).cur.selection < ((s.runCommands cmds).total : Int) ∧
      (s.runCommands cmds).total = s.total := by
  induction cmds with
  | nil =>
    intro s _ htot h0 h1
    exact ⟨h0, h1, rfl⟩
  | cons c rest ih =>
    intro s hc htot h0 h1
    have hstep := upDown_step s c (hc c (by simp)) htot h0 h1
    have hrest := ih ((s.processCommand c).1) (fun x hx => hc x (by simp [hx]))
      (by rw [hstep.2.2]; exact htot) hstep.1 (by rw [hstep.2.2]; exact hstep.2.1)
    simp only [MenuTree.runCommands, List.foldl_cons] at hrest ⊢
    exact ⟨hrest.1, hrest.2.1, by rw [hrest.2.2, hstep.2.2]⟩

/-- C5: for any menu with total item count `N+M > 0` and selection in
`[0, N+M)`, the selection stays in `[0, N+M)` (and the total is unchanged)
after any sequence of UP/DOWN commands; UP at 0 wraps to `N+M-1` and DOWN at
`N+M-1` wraps to 0. -/
theorem c5_up_down_wraparound :
    ∀ (cmds : List String) (s : MenuTree),
      (∀ c ∈ cmds, c = "UP" ∨ c = "DOWN") →
      0 < s.total → 0 ≤ s.cur.selection → s.cur.selection < (s.total : Int) →
      (0 ≤ (s.runCommands cmds).cur.selection ∧
       (s.runCommands cmds).cur.selection < ((s.runCommands cmds).total : Int) ∧
       (s.runCommands cmds).total = s.total) ∧
      (s.cur.selection = 0 →
        ((s.processCommand ("UP")).1).cur.selection = (s.total : Int) - 1) ∧
      (s.cur.selection = (s.total : Int) - 1 →
        ((s.processCommand ("DOWN")).1).cur.selection = 0) := by
  intro cmds s hc htot h0 h1
  exact ⟨runCommands_inv cmds s hc htot h0 h1,
    fun hz => up_at_zero s htot hz,
    fun ht => down_at_top s ht⟩

/-- C5 witness: the wraparound statement applied to the concrete example
tree (two options, one submenu, total 3) with the command sequence
UP, DOWN, DOWN. -/
theorem c5_up_down_wraparound_witness :
    (0 ≤ (exMainTree.runCommands ["UP", "DOWN", "DOWN"]).cur.selection ∧
     (exMainTree.runCommands ["UP", "DOWN", "DOWN"]).cur.selection <
       ((exMainTree.runCommands ["UP", "DOWN", "DOWN"]).total : Int) ∧
     (exMainTree.runCommands ["UP", "DOWN", "DOWN"]).total = exMainTree.total) ∧
    (exMainTree.cur.selection = 0 →
      ((exMainTree.processCommand ("UP")).1).cur.selection = (exMainTree.total : Int) - 1) ∧
    (exMainTree.cur.selection = (exMainTree.total : Int) - 1 →
      ((exMainTree.processCommand ("DOWN")).1).cur.selection = 0) :=
  c5_up_down_wraparound ["UP", "DOWN", "DOWN"] exMainTree (by decide)
    (by decide) (by decide) (by decide)

/-! ### C4, C9, C10 — the hotkey table -/

lemma lookup_none_iff_not_mem_keys (k : String) (l : List (String × Nat)) :
    List.lookup k l = none ↔ k ∉ l.map Prod.fst := by
  induction l with
  | nil => simp
  | cons p rest ih =>
    obtain ⟨a, b⟩ := p
    by_cases h : k = a
    · simp [List.lookup, h]
    · have hb : (k == a) = false := beq_eq_false_iff_ne.mpr h
      simp only [List.lookup, hb, List.map_cons, List.mem_cons, not_or]
      rw [← ih]
      exact ⟨fun hl => ⟨h, hl⟩, fun hr => hr.2⟩

lemma singleton_length (c : Char) : (String.singleton c).length = 1 := rfl

lemma goodTable_nil : goodTable [] := by simp [goodTable]

lemma assignHotkeyGo_good (hk : List (String × Nat)) (i : Nat) (cs : List Char)
    (h : goodTable hk) : goodTable (assignHotkeyGo hk i cs).1 := by
  induction cs with
  | nil => exact h
  | cons c rest ih =>
    by_cases hx : String.singleton (Char.toUpper c) = "X"
    · simpa [assignHotkeyGo, hx] using ih
    · cases hl : List.lookup (String.singleton (Char.toUpper c)) hk with
      | some v => simpa [assignHotkeyGo, hx, hl] using ih
      | none =>
        have hnot : String.singleton (Char.toUpper c) ∉ hk.map Prod.fst :=
          (lookup_none_iff_not_mem_keys _ _).1 hl
        simp only [assignHotkeyGo, hx, hl]
        refine ⟨?_, ?_⟩
        · simpa using List.Nodup.cons hnot h.1
        · intro k hk2
          rcases (by simpa using hk2 : k = String.singleton (Char.toUpper c) ∨
              k ∈ hk.map Prod.fst) with rfl | hmem
          · exact ⟨hx, singleton_length _⟩
          · exact h.2 k hmem

lemma assignHotkey_good (m : Menu) (n : String) (i : Nat)
    (h : goodTable m.hotKeys) : goodTable ((m.assignHotkey n i).1).hotKeys :=
  assignHotkeyGo_good m.hotKeys i n.data h

lemma renderOptionLines_good (sel : Int) (os : List String) (i : Nat) (m : Menu)
    (h : goodTable m.hotKeys) : goodTable ((renderOptionLines sel os i m).1).hotKeys := by
  induction os generalizing i m with
  | nil => exact h
  | cons o rest ih => exact ih (i + 1) (m.assignHotkey o i).1 (assignHotkey_good m o i h)

lemma renderSubLines_good (menus : Nat → Menu) (sel : Int) (base : Nat)
    (sm : List Nat) (i : Nat) (m : Menu) (h : goodTable m.hotKeys) :
    goodTable ((renderSubLines menus sel base sm i m).1).hotKeys := by
  induction sm generalizing i m with
  | nil => exact h
  | cons x rest ih =>
    exact ih (i + 1) (m.assignHotkey (menus x).name (i + base)).1
      (assignHotkey_good m (menus x).name (i + base) h)

lemma renderMenuLines_good (s : MenuTree) :
    goodTable ((renderMenuLines s).1).hotKeys := by
  unfold renderMenuLines
  have h1 : goodTable (resolvePrompt { s.cur with hotKeys := [] }).hotKeys := by
    rw [resolvePrompt_hotKeys]
    exact goodTable_nil
  cases hl : List.lookup s.currentMenu s.subMenuMap with
  | none => simpa [hl] using renderOptionLines_good _ _ 0 _ h1
  | some smm =>
    simpa [hl] using
      renderSubLines_good s.menus _ _ smm 0 _ (renderOptionLines_good _ _ 0 _ h1)

lemma render_cur_hotKeys_good (s : MenuTree) :
    goodTable (((s.render).1).cur.hotKeys) := by
  simpa [MenuTree.render, setCur_cur] using renderMenuLines_good s

lemma assignHotkeyGo_find (hk : List (String × Nat)) (i : Nat) (cs : List Char) :
    assignHotkeyGo hk i cs =
      match cs.find? (fun c =>
          (!(String.singleton (Char.toUpper c) == "X")) &&
          (List.lookup (String.singleton (Char.toUpper c)) hk).isNone) with
      | some c => ((String.singleton (Char.toUpper c), i) :: hk, some (String.singleton c))
      | none => (hk, none) := by
  induction cs with
  | nil => rfl
  | cons c rest ih =>
    by_cases hx : String.singleton (Char.toUpper c) = "X"
    · simpa [assignHotkeyGo, hx] using ih
    · cases hl : List.lookup (String.singleton (Char.toUpper c)) hk with
      | some v => simpa [assignHotkeyGo, hx, hl] using ih
      | none => simp [assignHotkeyGo, hx, hl]

/-- C4: within one render pass (hotkey table cleared once, then assignHotkey
per item in display order) the registered keys are pairwise distinct and the
reserved exit letter X is never among them; and assignHotkey is the
deterministic first-free-letter rule — the item gets the first character of
its name whose uppercase form is neither X nor an existing key (registering
that uppercase letter), or no hotkey when no character qualifies. -/
theorem c4_hotkey_assignment :
    (∀ s : MenuTree, ((((s.render).1).cur.hotKeys).map Prod.fst).Nodup) ∧
    (∀ s : MenuTree, ("X") ∉ (((s.render).1).cur.hotKeys).map Prod.fst) ∧
    (∀ (m : Menu) (name : String) (idx : Nat),
      m.assignHotkey name idx =
        match name.data.find? (fun c =>
            (!(String.singleton (Char.toUpper c) == "X")) &&
            (List.lookup (String.singleton (Char.toUpper c)) m.hotKeys).isNone) with
        | some c =>
            ({ m with hotKeys := (String.singleton (Char.toUpper c), idx) :: m.hotKeys },
             some (String.singleton c))
        | none => (m, none)) := by
  refine ⟨?_, ?_, ?_⟩
  · intro s
    exact (render_cur_hotKeys_good s).1
  · intro s hmem
    exact ((render_cur_hotKeys_good s).2 _ hmem).1 rfl
  · intro m name idx
    cases h : name.data.find? (fun c =>
        (!(String.singleton (Char.toUpper c) == "X")) &&
        (List.lookup (String.singleton (Char.toUpper c)) m.hotKeys).isNone) <;>
      simp [Menu.assignHotkey, assignHotkeyGo_find, h]

/-- C4 witness: the collision-freedom clauses at the concrete example tree. -/
theorem c4_hotkey_assignment_witness :
    ((((exMainTree.render).1).cur.hotKeys).map Prod.fst).Nodup ∧
    ("X") ∉ (((exMainTree.render).1).cur.hotKeys).map Prod.fst :=
  ⟨c4_hotkey_assignment.1 exMainTree, c4_hotkey_assignment.2.1 exMainTree⟩

/-- C9: the hotkey table produced by a render pass holds only single-letter
keys, so the lookup of the four-letter literal EXIT always misses, and the
EXIT command always ends the session by clearing the displaying flag. -/
theorem c9_exit_branch_unreachable :
    (∀ s : MenuTree, ∀ k ∈ (((s.render).1).cur.hotKeys).map Prod.fst, k.length = 1) ∧
    (∀ s : MenuTree, List.lookup ("EXIT") (((s.render).1).cur.hotKeys) = none) ∧
    (∀ s : MenuTree, List.lookup ("EXIT") s.cur.hotKeys = none →
      ((s.processCommand ("EXIT")).1).displaying = false ∧
      (s.processCommand ("EXIT")).2 = []) := by
  refine ⟨?_, ?_, ?_⟩
  · intro s k hmem
    exact ((render_cur_hotKeys_good s).2 k hmem).2
  · intro s
    rw [lookup_none_iff_not_mem_keys]
    intro hmem
    have h1 : ("EXIT" : String).length = 1 :=
      ((render_cur_hotKeys_good s).2 _ hmem).2
    have h4 : ("EXIT" : String).length = 4 := rfl
    omega
  · intro s h
    simp [MenuTree.processCommand, h]

/-- C9 witness: EXIT at a concrete menu whose table has no EXIT key. -/
theorem c9_exit_branch_unreachable_witness :
    ((exEmptyTree.processCommand ("EXIT")).1).displaying = false ∧
    (exEmptyTree.processCommand ("EXIT")).2 = [] :=
  c9_exit_branch_unreachable.2.2 exEmptyTree rfl

lemma singleton_ne_EXIT (c : Char) : String.singleton c ≠ "EXIT" := by
  intro h
  have h2 : (String.singleton c).length = ("EXIT" : String).length := by rw [h]
  rw [singleton_length] at h2
  exact absurd h2 (by decide)

/-- C10: only the lowercase exit byte 120 or the interrupt byte 3 decode to
EXIT (and only on short reads); a single-byte read of uppercase X (88)
decodes to the literal X, which survives the upper-casing of the loop; the
letter X is never a key of a rendered hotkey table; and with no X key the
whole Display iteration on that read returns the state unchanged with an
empty trace — a silent no-op. -/
theorem c10_uppercase_x_noop :
    (∀ bb : List Nat, getInput bb = "EXIT" ↔
      bb.length ≠ 3 ∧ (bb.getD 0 0 = 120 ∨ bb.getD 0 0 = 3)) ∧
    getInput [88] = "X" ∧
    stringsToUpper (getInput [88]) = "X" ∧
    (∀ s : MenuTree, ("X") ∉ (((s.render).1).cur.hotKeys).map Prod.fst) ∧
    (∀ s : MenuTree, List.lookup ("X") s.cur.hotKeys = none →
      s.displayStep [88] = (s, [])) := by
  refine ⟨?_, by decide, by decide, ?_, ?_⟩
  · intro bb
    by_cases h3 : bb.length = 3
    · simp only [getInput, h3, if_pos, up, down, left, right]
      split_ifs <;> simp [h3]
    · simp only [getInput, h3, if_neg, enter, escape, backtick, exitX, ctrlC]
      split_ifs <;> simp_all [singleton_ne_EXIT]
  · intro s hmem
    exact ((render_cur_hotKeys_good s).2 _ hmem).1 rfl
  · intro s h
    have hX : stringsToUpper (getInput [88]) = "X" := by decide
    show s.processCommand (stringsToUpper (getInput [88])) = (s, [])
    rw [hX]
    simp [MenuTree.processCommand, h]

/-- C10 witness: the whole iteration on the byte 88 at a concrete menu. -/
theorem c10_uppercase_x_noop_witness :
    exEmptyTree.displayStep [88] = (exEmptyTree, []) :=
  c10_uppercase_x_noop.2.2.2.2 exEmptyTree rfl

/-! ### C8 — AddOption on a duplicate-free order sequence -/

lemma getD_ne_of_lt_indexOf (l : List String) (a : String) :
    ∀ j : Nat, j < l.indexOf a → l.getD j ("") ≠ a := by
  induction l with
  | nil => intro j h; rw [List.indexOf_nil] at h; omega
  | cons b t ih =>
    intro j h
    by_cases hb : b = a
    · rw [List.indexOf_cons_eq t hb] at h; omega
    · rw [List.indexOf_cons_ne t hb] at h
      cases j with
      | zero => simpa [List.getD_cons_zero] using hb
      | succ j2 =>
        rw [List.getD_cons_succ]
        exact ih j2 (by omega)

lemma addOptionGo_skip (name : String) :
    ∀ (steps i : Nat) (buf : List String) (len : Nat),
      (∀ j, i ≤ j → j < i + steps → buf.getD j ("") ≠ name) →
      addOptionGo name steps i (buf, len) = (buf, len) := by
  intro steps
  induction steps with
  | zero => intro i buf len _; rfl
  | succ k ih =>
    intro i buf len h
    have hi : ¬(buf.getD i ("") = name) := h i (Nat.le_refl i) (by omega)
    rw [show addOptionGo name (k + 1) i (buf, len) =
        addOptionGo name k (i + 1)
          (if buf.getD i ("") = name then (sliceRemoveAt buf len i, len - 1)
           else (buf, len)) from rfl]
    rw [if_neg hi]
    exact ih (i + 1) buf len (fun j hj1 hj2 => h j (by omega) (by omega))

lemma addOptionGo_split (name : String) :
    ∀ (s1 s2 i : Nat) (st : List String × Nat),
      addOptionGo name (s1 + s2) i st =
        addOptionGo name s2 (i + s1) (addOptionGo name s1 i st) := by
  intro s1
  induction s1 with
  | zero =>
    intro s2 i st
    simp [addOptionGo]
  | succ k ih =>
    intro s2 i st
    obtain ⟨buf, len⟩ := st
    rw [show k + 1 + s2 = (k + s2) + 1 from by omega]
    rw [show addOptionGo name ((k + s2) + 1) i (buf, len) =
        addOptionGo name (k + s2) (i + 1)
          (if buf.getD i ("") = name then (sliceRemoveAt buf len i, len - 1)
           else (buf, len)) from rfl]
    rw [show addOptionGo name (k + 1) i (buf, len) =
        addOptionGo name k (i + 1)
          (if buf.getD i ("") = name then (sliceRemoveAt buf len i, len - 1)
           else (buf, len)) from rfl]
    rw [ih]
    rw [show i + 1 + k = i + (k + 1) from by omega]

lemma addOptionGo_skip_not_mem (name : String) (steps i : Nat) (buf : List String)
    (len : Nat) (hmem : name ∉ buf) (hrange : i + steps ≤ buf.length) :
    addOptionGo name steps i (buf, len) = (buf, len) := by
  apply addOptionGo_skip
  intro j hj1 hj2
  have hjl : j < buf.length := by omega
  rw [List.getD_eq_getElem buf ("") hjl]
  intro hEq
  exact hmem (hEq ▸ List.getElem_mem hjl)

lemma addOptionGo_run (name : String) (buf : List String) (hnd : buf.Nodup) :
    (name ∈ buf ∧
      addOptionGo name buf.length 0 (buf, buf.length) =
        (buf.erase name ++ buf.drop (buf.length - 1), buf.length - 1)) ∨
    (name ∉ buf ∧
      addOptionGo name buf.length 0 (buf, buf.length) = (buf, buf.length)) := by
  by_cases hmem : name ∈ buf
  · left
    refine ⟨hmem, ?_⟩
    have hkL : buf.indexOf name < buf.length := List.indexOf_lt_length.2 hmem
    have hkget : buf[buf.indexOf name] = name := List.getElem_indexOf hkL
    have hdecomp : buf = buf.take (buf.indexOf name) ++
        name :: buf.drop (buf.indexOf name + 1) := by
      conv_lhs => rw [← List.take_append_drop (buf.indexOf name) buf]
      rw [List.drop_eq_getElem_cons hkL, hkget]
    have ht_len : (buf.take (buf.indexOf name)).length = buf.indexOf name := by
      rw [List.length_take]
      omega
    have hd_len : (buf.drop (buf.indexOf name + 1)).length =
        buf.length - (buf.indexOf name + 1) := List.length_drop _ _
    have hnotmem : name ∉ buf.take (buf.indexOf name) ∧
        name ∉ buf.drop (buf.indexOf name + 1) := by
      have h2 := hnd
      rw [hdecomp, List.nodup_middle, List.nodup_cons, List.mem_append] at h2
      exact ⟨fun hx => h2.1 (Or.inl hx), fun hx => h2.1 (Or.inr hx)⟩
    have herase : buf.erase name =
        buf.take (buf.indexOf name) ++ buf.drop (buf.indexOf name + 1) := by
      conv_lhs => rw [hdecomp]
      rw [List.erase_append_right _ hnotmem.1, List.erase_cons_head]
    have hslice : sliceRemoveAt buf buf.length (buf.indexOf name) =
        buf.erase name ++ buf.drop (buf.length - 1) := by
      unfold sliceRemoveAt
      rw [herase]
      congr 1
      congr 1
      rw [← hd_len, List.take_length]
    have hslice_len : (sliceRemoveAt buf buf.length (buf.indexOf name)).length =
        buf.length := by
      rw [hslice, List.length_append, List.length_erase_of_mem hmem, List.length_drop]
      omega
    have hnot_slice : name ∉ sliceRemoveAt buf buf.length (buf.indexOf name) ∨
        buf.indexOf name = buf.length - 1 := by
      by_cases hlast : buf.indexOf name = buf.length - 1
      · right; exact hlast
      · left
        rw [hslice, herase]
        intro hx
        rcases List.mem_append.1 hx with hx2 | hx3
        · rcases List.mem_append.1 hx2 with hx4 | hx5
          · exact hnotmem.1 hx4
          · exact hnotmem.2 hx5
        · have hdd : buf.drop (buf.length - 1) =
              (buf.drop (buf.indexOf name + 1)).drop
                (buf.length - 1 - (buf.indexOf name + 1)) := by
            rw [List.drop_drop]
            congr 1
            omega
          rw [hdd] at hx3
          exact hnotmem.2 (List.mem_of_mem_drop hx3)
    have hstep1 : addOptionGo name (buf.indexOf name) 0 (buf, buf.length) =
        (buf, buf.length) :=
      addOptionGo_skip name (buf.indexOf name) 0 buf buf.length
        (fun j _ hj2 => getD_ne_of_lt_indexOf buf name j (by omega))
    have hmain : addOptionGo name buf.length 0 (buf, buf.length) =
        addOptionGo name (buf.length - (buf.indexOf name + 1)) (buf.indexOf name + 1)
          (sliceRemoveAt buf buf.length (buf.indexOf name), buf.length - 1) := by
      have e0 : addOptionGo name buf.length 0 (buf, buf.length) =
          addOptionGo name (buf.indexOf name + (buf.length - buf.indexOf name)) 0
            (buf, buf.length) := by
        congr 1
        omega
      have e1 := addOptionGo_split name (buf.indexOf name)
        (buf.length - buf.indexOf name) 0 (buf, buf.length)
      rw [hstep1, Nat.zero_add] at e1
      have e2 : addOptionGo name (buf.length - buf.indexOf name) (buf.indexOf name)
            (buf, buf.length) =
          addOptionGo name ((buf.length - (buf.indexOf name + 1)) + 1)
            (buf.indexOf name) (buf, buf.length) := by
        congr 1
        omega
      have e3 : addOptionGo name ((buf.length - (buf.indexOf name + 1)) + 1)
            (buf.indexOf name) (buf, buf.length) =
          addOptionGo name (buf.length - (buf.indexOf name + 1)) (buf.indexOf name + 1)
            (if buf.getD (buf.indexOf name) ("") = name then
              (sliceRemoveAt buf buf.length (buf.indexOf name), buf.length - 1)
             else (buf, buf.length)) := rfl
      rw [e0, e1, e2, e3, if_pos (by rw [List.getD_eq_getElem buf ("") hkL, hkget])]
    rw [hmain]
    rcases hnot_slice with hns | hlast
    · rw [addOptionGo_skip_not_mem name _ _ _ _ hns (by omega)]
      rw [hslice]
    · rw [show buf.length - (buf.indexOf name + 1) = 0 from by omega]
      rw [show addOptionGo name 0 (buf.indexOf name + 1)
          (sliceRemoveAt buf buf.length (buf.indexOf name), buf.length - 1) =
        (sliceRemoveAt buf buf.length (buf.indexOf name), buf.length - 1) from rfl]
      rw [hslice]
  · right
    exact ⟨hmem,
      addOptionGo_skip_not_mem name buf.length 0 buf buf.length hmem (by omega)⟩

lemma addOption_order (buf : List String) (name : String) (hnd : buf.Nodup) :
    (addOptionGo name buf.length 0 (buf, buf.length)).1.take
        (addOptionGo name buf.length 0 (buf, buf.length)).2 =
      buf.erase name := by
  rcases addOptionGo_run name buf hnd with ⟨hmem, h⟩ | ⟨hmem, h⟩
  · rw [h]
    have hlen : (buf.erase name).length = buf.length - 1 :=
      List.length_erase_of_mem hmem
    rw [← hlen, List.take_left]
  · rw [h]
    rw [List.take_length, List.erase_of_not_mem hmem]

/-- C8: on a menu whose order sequence has no duplicates, AddOption leaves
the name exactly once in the order sequence, at its end — re-adding an
existing name removes its old position before appending without disturbing
the relative order of the other names (the result is the erase of the name
followed by the name) — and the options map binds the name to the new value
(last write wins). -/
theorem c8_addOption_moves_to_end :
    ∀ (m : Menu) (name : String) (f : Nat),
      m.optionsOrder.Nodup →
      (m.AddOption name f).optionsOrder = m.optionsOrder.erase name ++ [name] ∧
      (m.AddOption name f).options name = some f ∧
      (m.AddOption name f).optionsOrder.count name = 1 := by
  intro m name f hnd
  have horder : (m.AddOption name f).optionsOrder =
      m.optionsOrder.erase name ++ [name] := by
    show (addOptionGo name m.optionsOrder.length 0
          (m.optionsOrder, m.optionsOrder.length)).1.take
        (addOptionGo name m.optionsOrder.length 0
          (m.optionsOrder, m.optionsOrder.length)).2 ++ [name] = _
    rw [addOption_order m.optionsOrder name hnd]
  refine ⟨horder, ?_, ?_⟩
  · show (if name = name then some f else m.options name) = some f
    rw [if_pos rfl]
  · rw [horder, List.count_append]
    have h1 : m.optionsOrder.count name ≤ 1 := List.nodup_iff_count_le_one.1 hnd name
    have h2 := List.count_erase_self name m.optionsOrder
    simp [List.count_singleton]
    omega

/-- C8 witness: re-adding b to the order a, b, c moves it to the end and
rebinds it. -/
theorem c8_addOption_moves_to_end_witness :
    (exAddMenu.AddOption ("b") 9).optionsOrder =
      exAddMenu.optionsOrder.erase ("b") ++ ["b"] ∧
    (exAddMenu.AddOption ("b") 9).options ("b") = some 9 ∧
    (exAddMenu.AddOption ("b") 9).optionsOrder.count ("b") = 1 :=
  c8_addOption_moves_to_end exAddMenu ("b") 9 (by decide)

end GoMenuTree
